import Mathlib

/-!
Verification development for the Photos.app library exporter
(`export_photos.py`).  The script is shallowly embedded below: the pure
helpers become Lean functions, the stateful main export loop becomes a
fold over an explicit `LoopState`, and the calls to the external
metadata tool become an effect trace (`EtCall`).  Filesystem state is
modelled as the list of destination paths that exist, and the SQLite
database is modelled as a `Library` record of lookup functions.
-/

/-- Command line flags of the script (lines 16-36).  `progress` and
`verbose` only affect console printing and are not modelled. -/
structure Args where
  dryrun : Bool
  exif : Bool
  faces : Bool
  location : Bool
  region : Bool
deriving DecidableEq

/-- One row of the main query (lines 273-278):
`SELECT m.imagePath, m.fileName, v.imageDate AS date,
v.imageTimeZoneOffsetSeconds AS offset, v.uuid, v.modelId`. -/
structure Row where
  imagePath : String
  fileName : String
  date : Int
  offset : Int
  uuid : Nat
  modelId : Nat
deriving DecidableEq

/-- EXIF tags of a destination file as read back by the external tool
(`et.get_tags(("EXIF:DateTimeOriginal", "EXIF:CreateDate"), f)`,
line 175). -/
structure FileMeta where
  createDate : Option String
  dateTimeOriginal : Option String
deriving DecidableEq

/-- The read-only database snapshot: the `RKPlaceForVersion` association
(versionId to placeIds, lines 136-141), the `RKPlace` table as rows of
(modelId, defaultName, area) (lines 143-147), and the person-name
lookup behind `facesByUuid` (lines 160-171). -/
structure Library where
  placeForVersion : Nat → List Nat
  rkPlace : List (Nat × String × Int)
  facesOf : Nat → List String

/-- A call issued to the external metadata tool: a tag read
(`et.get_tags`, line 175), a date write (`setDateInExif`, lines
184-186) or a keyword write (`setExifKeywords`, lines 189-191). -/
inductive EtCall where
  | getTags (file : String)
  | setDate (file : String) (date : String)
  | setKeywords (file : String) (keywords : List String)
deriving DecidableEq

/-- Record of one flushed day-stack (ghost trace of lines 296-333):
the destination subdirectory chosen, the day key (`stack_timestamp`),
the place tally (`places_freq`) and the photos of the stack at flush
time. -/
structure FlushRec where
  subdir : String
  dayk : String
  tally : List (String × Nat)
  stack : List Row
deriving DecidableEq

/-- The mutable state of the main export loop (lines 264-270), plus the
destination filesystem (`fs`, the set of paths that exist), the trace
of metadata-tool calls (`ops`) and the ghost trace of flushed stacks
(`flushed`). -/
structure LoopState where
  fs : List String
  copied : Nat
  ignored : Nat
  index : Nat
  stack : List Row
  stack_timestamp : String
  places_freq : List (String × Nat)
  ops : List EtCall
  flushed : List FlushRec
deriving DecidableEq

/-- `epoch = datetime(2001, 1, 1, 0, 0, 0, 0, timezone.utc).timestamp()`
(line 195), in seconds since the UNIX epoch. -/
def epoch : Int := 978307200

/-- `photoTimestamp` (lines 198-199) as UNIX seconds:
`epoch + row["date"] + row["offset"]`. -/
def photoTimestamp (row : Row) : Int :=
  epoch + row.date + row.offset

/-- Convert a day count since 1970-01-01 to a proleptic Gregorian
(year, month, day), the standard civil-from-days computation used by
`datetime.fromtimestamp(..., timezone.utc)`. -/
def civilFromDays (z : Int) : Int × Nat × Nat :=
  let z2 := z + 719468
  let era : Int := Int.fdiv z2 146097
  let doe : Nat := (z2 - era * 146097).toNat
  let yoe : Nat := (doe - doe / 1460 + doe / 36524 - doe / 146096) / 365
  let doy : Nat := doe - (365 * yoe + yoe / 4 - yoe / 100)
  let mp : Nat := (5 * doy + 2) / 153
  let d : Nat := doy - (153 * mp + 2) / 5 + 1
  let m : Nat := if mp < 10 then mp + 3 else mp - 9
  let y : Int := (yoe : Int) + era * 400 + (if m ≤ 2 then 1 else 0)
  (y, m, d)

/-- Zero-pad a number to two digits, as `strftime` does for
`%m`, `%d`, `%H`, `%M` and `%S`. -/
def pad2 (n : Nat) : String :=
  if n < 10 then "0" ++ toString n else toString n

/-- `photoTimestamp(row).strftime("%Y-%m-%d")` (line 281) applied to
UNIX seconds `t` (UTC). -/
def dayKeyOfSecs (t : Int) : String :=
  let days := Int.fdiv t 86400
  let c := civilFromDays days
  toString c.1 ++ "-" ++ pad2 c.2.1 ++ "-" ++ pad2 c.2.2

/-- `photoTimestamp(row).strftime("%Y:%m:%d %H:%M:%S")` (line 237)
applied to UNIX seconds `t` (UTC). -/
def exifDateOfSecs (t : Int) : String :=
  let days := Int.fdiv t 86400
  let secs := (Int.emod t 86400).toNat
  let c := civilFromDays days
  toString c.1 ++ ":" ++ pad2 c.2.1 ++ ":" ++ pad2 c.2.2 ++ " " ++
    pad2 (secs / 3600) ++ ":" ++ pad2 (secs % 3600 / 60) ++ ":" ++ pad2 (secs % 60)

/-- Index of the last `.` in a character list, if any. -/
def lastDotAux : List Char → Nat → Option Nat → Option Nat
  | [], _, acc => acc
  | c :: rest, i, acc => lastDotAux rest (i + 1) (if c = '.' then some i else acc)

/-- `os.path.splitext(s)[1]` for a bare file name: the suffix starting
at the last dot, provided some character before that dot is not itself
a dot (CPython `genericpath._splitext`). -/
def splitextExt (s : String) : String :=
  let cs := s.toList
  match lastDotAux cs 0 none with
  | none => ""
  | some i => if (cs.take i).any (fun c => c ≠ '.') then String.mk (cs.drop i) else ""

/-- `os.path.splitext(row["fileName"])[1].lower()` (line 234). -/
def extLower (s : String) : String :=
  String.mk ((splitextExt s).toList.map Char.toLower)

/-- `currentDateInExif` (lines 174-181): prefer the `EXIF:CreateDate`
tag, fall back to `EXIF:DateTimeOriginal`, else the empty string. -/
def currentDateInExif (meta : FileMeta) : String :=
  match meta.createDate with
  | some d => d
  | none =>
    match meta.dateTimeOriginal with
    | some d => d
    | none => ""

/-- `places_freq.get(place, 0)`: the count stored for a key,
0 when absent. -/
def freqGet (m : List (String × Nat)) (k : String) : Nat :=
  match m.find? (fun p => p.1 == k) with
  | some p => p.2
  | none => 0

/-- `places_freq[place] = places_freq.get(place, 0) + 1` (line 288) on
an insertion-ordered association list, the model of a Python dict. -/
def freqInc (m : List (String × Nat)) (k : String) : List (String × Nat) :=
  if m.any (fun p => p.1 == k) then
    m.map (fun p => if p.1 == k then (p.1, p.2 + 1) else p)
  else
    m ++ [(k, 1)]

/-- Scanning helper for `max(places_freq, key = places_freq.get)`:
Python's `max` keeps the current best unless a later element is
strictly greater. -/
def freqMaxAux : List (String × Nat) → String × Nat → String × Nat
  | [], best => best
  | p :: rest, best => freqMaxAux rest (if best.2 < p.2 then p else best)

/-- `max(places_freq, key = places_freq.get)` (line 301): the first key
of the insertion-ordered tally attaining the maximal count. -/
def freqMax (m : List (String × Nat)) : String :=
  match m with
  | [] => ""
  | p :: rest => (freqMaxAux rest p).1

/-- Largest count in a tally. -/
def maxCount : List (String × Nat) → Nat
  | [] => 0
  | p :: l => max p.2 (maxCount l)

/-- Modelled from the spec: "the place with the strictly highest tally
count wins; ties are resolved by ... first maximum encountered" — the
first pair of the tally whose count is not exceeded later. -/
def firstMaxPair : List (String × Nat) → Option (String × Nat)
  | [] => none
  | p :: l => if maxCount l ≤ p.2 then some p else firstMaxPair l

/-- Insert a place row into a list sorted by ascending `area`
(stable). -/
def insertByArea (x : Nat × String × Int) : List (Nat × String × Int) → List (Nat × String × Int)
  | [] => [x]
  | y :: l => if x.2.2 ≤ y.2.2 then x :: y :: l else y :: insertByArea x l

/-- Stable sort of place rows by ascending `area`
(`ORDER BY area ASC`, line 147). -/
def sortByArea : List (Nat × String × Int) → List (Nat × String × Int)
  | [] => []
  | x :: l => insertByArea x (sortByArea l)

/-- Keep the first occurrence of each element (`SELECT DISTINCT`). -/
def dedupFirst (l : List String) : List String :=
  l.foldl (fun acc x => if acc.contains x then acc else acc ++ [x]) []

/-- The inner query of `placeByModelId` (lines 143-147):
`SELECT DISTINCT defaultName FROM RKPlace WHERE modelId IN(placeIds)
ORDER BY area ASC`, modelled as: filter the place rows to the given
ids, sort by ascending area, take the names, first occurrence of each
distinct name. -/
def placeNamesAsc (lib : Library) (placeIds : List Nat) : List String :=
  dedupFirst ((sortByArea (lib.rkPlace.filter (fun r => placeIds.contains r.1))).map
    (fun r => r.2.1))

/-- `', '.join(...)`: join a list of strings with a separator. -/
def joinSep (sep : String) : List String → String
  | [] => ""
  | [x] => x
  | x :: y :: l => x ++ sep ++ joinSep sep (y :: l)

/-- `placeByModelId` (lines 135-157).  The `args.region` global is
passed explicitly.  Returns the empty string when the photo has no
place association or no matching place rows; otherwise the single most
specific (smallest-area) name, or, in region mode, all distinct names
joined largest-region-first. -/
def placeByModelId (lib : Library) (region : Bool) (modelId : Nat) : String :=
  let placeIds := lib.placeForVersion modelId
  if placeIds.isEmpty then ""
  else
    let regional_info := placeNamesAsc lib placeIds
    if regional_info.isEmpty then ""
    else if region then joinSep ", " regional_info.reverse
    else regional_info.headD ""

/-- `facesByUuid` (lines 160-171): the person names tagged on the
photo, modelled as the library's association lookup. -/
def facesByUuid (lib : Library) (uuId : Nat) : List String :=
  lib.facesOf uuId

/-- `copyPhoto` (lines 208-227) restricted to its observable effect on
the destination; returns `(destinationFile, status, fs)` with status 1
(copied; the file is created unless `--dryrun`) or 2 (already at
destination).  The destination root prefix is dropped: paths are
`destinationSubDir ++ "/" ++ fileName`. -/
def copyPhoto (args : Args) (fs : List String) (row : Row) (destinationSubDir : String) :
    String × Nat × List String :=
  let destinationFile := destinationSubDir ++ "/" ++ row.fileName
  if fs.contains destinationFile then
    (destinationFile, 2, fs)
  else
    (destinationFile, 1, if args.dryrun then fs else destinationFile :: fs)

/-- `postProcessPhoto` (lines 231-252) as the list of calls issued to
the external metadata tool.  The EXIF date sync is guarded by the
extension check (lines 234-235); the face-keyword sync (lines 247-252)
is guarded only by `args.faces`. -/
def postProcessPhoto (args : Args) (lib : Library) (metaOf : String → FileMeta)
    (fileName : String) (row : Row) : List EtCall :=
  (if args.exif then
    let extension := extLower row.fileName
    if extension = ".jpg" ∨ extension = ".jpeg" then
      let compareDate := currentDateInExif (metaOf fileName)
      let desiredDate := exifDateOfSecs (photoTimestamp row)
      EtCall.getTags fileName ::
        (if compareDate ≠ desiredDate then [EtCall.setDate fileName desiredDate] else [])
    else []
  else []) ++
  (if args.faces then [EtCall.setKeywords fileName (facesByUuid lib row.uuid)] else [])

/-- Does a call list contain a date write? -/
def hasSetDate (l : List EtCall) : Bool :=
  l.any (fun c => match c with | EtCall.setDate _ _ => true | _ => false)

/-- Does a call list contain a keyword write? -/
def hasSetKeywords (l : List EtCall) : Bool :=
  l.any (fun c => match c with | EtCall.setKeywords _ _ => true | _ => false)

/-- The destination subdirectory chosen when a stack is flushed
(lines 298-306): the day key, suffixed with a space and the dominant
place when location augmentation is on and the tally is non-empty. -/
def flushSubdir (args : Args) (st : LoopState) : String :=
  let place := if args.location ∧ st.places_freq ≠ [] then freqMax st.places_freq else ""
  st.stack_timestamp ++ (if place ≠ "" then " " ++ place else "")

/-- Body of `for photo in stack` (lines 311-326): copy the photo,
bump `copied`/`ignored` according to the status, bump `index`, and
post-process unless `--dryrun` (lines 319-321). -/
def flushPhotoStep (args : Args) (lib : Library) (metaOf : String → FileMeta)
    (destinationSubDir : String) (s : LoopState) (photo : Row) : LoopState :=
  let r := copyPhoto args s.fs photo destinationSubDir
  let s1 := { s with fs := r.2.2,
                     copied := if r.2.1 = 1 then s.copied + 1 else s.copied,
                     ignored := if r.2.1 = 2 then s.ignored + 1 else s.ignored,
                     index := s.index + 1 }
  if args.dryrun then s1
  else { s1 with ops := s1.ops ++ postProcessPhoto args lib metaOf r.1 photo }

/-- `if len(stack): ...` (lines 297-329): flush the open stack through
the export planner, recording the flush in the ghost trace. -/
def flushStack (args : Args) (lib : Library) (metaOf : String → FileMeta)
    (st : LoopState) : LoopState :=
  if st.stack = [] then st
  else
    let destinationSubDir := flushSubdir args st
    let st1 := { st with flushed := st.flushed ++
      [⟨destinationSubDir, st.stack_timestamp, st.places_freq, st.stack⟩] }
    List.foldl (flushPhotoStep args lib metaOf destinationSubDir) st1 st.stack

/-- Body of the main loop (lines 280-344): stack the photo while its
day key matches the open stack, tallying its place; on a day-key
change flush the open stack and open a new one seeded with the photo
and its place. -/
def processRow (args : Args) (lib : Library) (metaOf : String → FileMeta)
    (st : LoopState) (row : Row) : LoopState :=
  let timestamp := dayKeyOfSecs (photoTimestamp row)
  if timestamp = st.stack_timestamp then
    let st1 := { st with stack := st.stack ++ [row] }
    if args.location then
      let place := placeByModelId lib args.region row.modelId
      if place ≠ "" then { st1 with places_freq := freqInc st1.places_freq place } else st1
    else st1
  else
    let st1 := flushStack args lib metaOf st
    let st2 := { st1 with stack := [row], stack_timestamp := timestamp }
    if args.location then
      let place := placeByModelId lib args.region row.modelId
      if place ≠ "" then { st2 with places_freq := [(place, 1)] }
      else { st2 with places_freq := [] }
    else st2

/-- Initial loop state (lines 264-270) over an existing destination
file set `fs0`. -/
def initState (fs0 : List String) : LoopState :=
  { fs := fs0, copied := 0, ignored := 0, index := 0, stack := [],
    stack_timestamp := "", places_freq := [], ops := [], flushed := [] }

/-- The whole export run (lines 264-344): fold the loop body over the
ordered row stream.  Faithful to the source, nothing is flushed after
the loop ends (lines 347-351 print the counters and clean up). -/
def runExport (args : Args) (lib : Library) (metaOf : String → FileMeta)
    (fs0 : List String) (rows : List Row) : LoopState :=
  rows.foldl (processRow args lib metaOf) (initState fs0)

/-- All photos accounted for by a state: the flushed stacks in order,
then the still-open stack. -/
def joinStacks (st : LoopState) : List Row :=
  (st.flushed.map FlushRec.stack).flatten ++ st.stack

/-- One step of the place tally as maintained by the loop: tally the
resolved place unless it is empty (lines 285-292 and 335-344). -/
def tallyStep (args : Args) (lib : Library) (m : List (String × Nat)) (r : Row) :
    List (String × Nat) :=
  let place := placeByModelId lib args.region r.modelId
  if place ≠ "" then freqInc m place else m

/-- The place tally of a photo list: occurrence counts of the non-empty
resolved places, keyed in first-appearance order. -/
def tallyOf (args : Args) (lib : Library) (stack : List Row) : List (String × Nat) :=
  stack.foldl (tallyStep args lib) []

/-- What the claim asserts of one flushed day-stack record: its tally
counts exactly the non-empty resolved places of its photos
(`tallyOf`); when every photo's resolved place is empty the
subdirectory is the bare day key; and when the tally is non-empty the
subdirectory is the day key suffixed with the first tally key
attaining the maximal count. -/
def GoodRec (args : Args) (lib : Library) (rec : FlushRec) : Prop :=
  rec.tally = tallyOf args lib rec.stack ∧
  ((∀ r ∈ rec.stack, placeByModelId lib args.region r.modelId = "") →
    rec.subdir = rec.dayk) ∧
  (rec.tally ≠ [] → ∃ p c, firstMaxPair rec.tally = some (p, c) ∧ p ≠ "" ∧
    rec.subdir = rec.dayk ++ " " ++ p ∧ ∀ q ∈ rec.tally, q.2 ≤ c)

/-- Process-level effects for the shutdown model. -/
inductive Effect where
  | dbClose
  | rmTempDir
  | etTerminate
  | exitCode (code : Int)
deriving DecidableEq

/-- `cleanUp` (lines 66-73): close the database, delete the temporary
directory, and terminate ExifTool when it was started (`'et' in
globals()`). -/
def cleanUpEffects (etStarted : Bool) : List Effect :=
  [Effect.dbClose, Effect.rmTempDir] ++ (if etStarted then [Effect.etTerminate] else [])

/-- `cleanOnInterrupt` (lines 75-77), the SIGINT handler: clean up,
then `sys.exit(0)`. -/
def cleanOnInterrupt (etStarted : Bool) : List Effect :=
  cleanUpEffects etStarted ++ [Effect.exitCode 0]

/-- The script's effect trace after the databases are opened, as a
function of the image count (lines 126-128 and 130-351): with zero
images, `sys.exit(0)` immediately (no cleanup); otherwise the main
body runs (ExifTool started iff `args.exif`) and `cleanUp()` follows
it. -/
def scriptTrace (args : Args) (numImages : Nat) (body : List Effect) : List Effect :=
  if numImages = 0 then [Effect.exitCode 0]
  else body ++ cleanUpEffects args.exif

/-- Flags with every modelled option off. -/
def baseArgs : Args :=
  { dryrun := false, exif := false, faces := false, location := false, region := false }

/-- Flags of the spec's example scenario: location augmentation on. -/
def exArgs : Args :=
  { dryrun := false, exif := false, faces := false, location := true, region := false }

/-- A metadata oracle for files carrying no EXIF date tags. -/
def exMeta : String → FileMeta := fun _ => { createDate := none, dateTimeOriginal := none }

/-- An empty library (no places, no faces). -/
def trivLib : Library :=
  { placeForVersion := fun _ => [], rkPlace := [], facesOf := fun _ => [] }

/-- Library of the spec's example scenario: photos 1 and 2 resolve to
place "Kitchen", photo 3 to "Garden", photo 4 to nothing. -/
def exLib : Library :=
  { placeForVersion := fun m => if m = 1 ∨ m = 2 then [10] else if m = 3 then [11] else [],
    rkPlace := [(10, "Kitchen", 5), (11, "Garden", 7)],
    facesOf := fun _ => [] }

/-- Seconds from the Cocoa epoch to 2023-05-01 00:00:00 UTC. -/
def day20230501 : Int := 704592000

/-- Example scenario, photo 1: 2023-05-01, place Kitchen. -/
def ex1 : Row :=
  { imagePath := "p1", fileName := "a.jpg", date := day20230501, offset := 0,
    uuid := 1, modelId := 1 }

/-- Example scenario, photo 2: 2023-05-01, place Kitchen. -/
def ex2 : Row :=
  { imagePath := "p2", fileName := "b.jpg", date := day20230501 + 3600, offset := 0,
    uuid := 2, modelId := 2 }

/-- Example scenario, photo 3: 2023-05-01, place Garden. -/
def ex3 : Row :=
  { imagePath := "p3", fileName := "c.jpg", date := day20230501 + 7200, offset := 0,
    uuid := 3, modelId := 3 }

/-- Example scenario, photo 4: 2023-05-02, no place. -/
def ex4 : Row :=
  { imagePath := "p4", fileName := "d.jpg", date := day20230501 + 86400, offset := 0,
    uuid := 4, modelId := 4 }

/-- A library with a single photo, for the idempotence claim. -/
def c2Row : Row :=
  { imagePath := "p", fileName := "solo.jpg", date := day20230501, offset := 0,
    uuid := 9, modelId := 9 }

/-- Flags with EXIF and face sync on. -/
def pngArgs : Args :=
  { dryrun := false, exif := true, faces := true, location := false, region := false }

/-- A photo whose extension is outside the metadata-editable set. -/
def pngRow : Row :=
  { imagePath := "px", fileName := "x.png", date := day20230501, offset := 0,
    uuid := 77, modelId := 77 }

/-- A library in which photo 77 is tagged with the face "Alice". -/
def pngLib : Library :=
  { placeForVersion := fun _ => [], rkPlace := [],
    facesOf := fun u => if u = 77 then ["Alice"] else [] }

/-- Flags with EXIF date sync on, normal mode. -/
def c4ArgsN : Args :=
  { dryrun := false, exif := true, faces := false, location := false, region := false }

/-- Flags with EXIF date sync on, dry-run mode. -/
def c4ArgsD : Args :=
  { dryrun := true, exif := true, faces := false, location := false, region := false }

/-- A JPEG photo on 2023-05-01 (flushed when the next day arrives). -/
def c4Row1 : Row :=
  { imagePath := "q1", fileName := "a.jpg", date := day20230501, offset := 0,
    uuid := 21, modelId := 21 }

/-- A photo on 2023-05-02, closing the previous day's stack. -/
def c4Row2 : Row :=
  { imagePath := "q2", fileName := "b.jpg", date := day20230501 + 86400, offset := 0,
    uuid := 22, modelId := 22 }

/-- Rows ordered by stored capture time (`date` 0, 1, 2) whose timezone
offsets place them on days 2001-01-02, 2001-01-01 and 2001-01-03. -/
def m1 : Row :=
  { imagePath := "r1", fileName := "m1.jpg", date := 0, offset := 86400,
    uuid := 31, modelId := 31 }

/-- Second row: stored capture time 1, resolved day 2001-01-01. -/
def m2 : Row :=
  { imagePath := "r2", fileName := "m2.jpg", date := 1, offset := 0,
    uuid := 32, modelId := 32 }

/-- Third row: stored capture time 2, resolved day 2001-01-03. -/
def m3 : Row :=
  { imagePath := "r3", fileName := "m3.jpg", date := 2, offset := 172800,
    uuid := 33, modelId := 33 }

/-- Library in which photo 1 is associated with a small place
"Kitchen" (area 5) inside a large region "Amsterdam" (area 1000). -/
def lib7 : Library :=
  { placeForVersion := fun m => if m = 1 then [10, 11] else [],
    rkPlace := [(10, "Kitchen", 5), (11, "Amsterdam", 1000)],
    facesOf := fun _ => [] }

/-- A fold preserves any invariant its step preserves. -/
theorem foldlInv {α σ : Type} (f : σ → α → σ) (P : σ → Prop)
    (h : ∀ s a, P s → P (f s a)) :
    ∀ (l : List α) (s : σ), P s → P (List.foldl f s l) := by
  intro l
  induction l with
  | nil => intro s hs; simpa using hs
  | cons a t ih =>
    intro s hs
    rw [List.foldl_cons]
    exact ih (f s a) (h s a hs)

/-- `copyPhoto` reports status 1 (copied) or 2 (already present). -/
theorem copyPhoto_status (args : Args) (fs : List String) (row : Row) (sub : String) :
    (copyPhoto args fs row sub).2.1 = 1 ∨ (copyPhoto args fs row sub).2.1 = 2 := by
  simp only [copyPhoto]
  split
  · exact Or.inr rfl
  · exact Or.inl rfl

/-- The per-photo flush step never touches the grouping fields. -/
theorem flushPhotoStep_frame (args : Args) (lib : Library) (metaOf : String → FileMeta)
    (sub : String) (s : LoopState) (photo : Row) :
    (flushPhotoStep args lib metaOf sub s photo).flushed = s.flushed ∧
    (flushPhotoStep args lib metaOf sub s photo).stack = s.stack ∧
    (flushPhotoStep args lib metaOf sub s photo).stack_timestamp = s.stack_timestamp ∧
    (flushPhotoStep args lib metaOf sub s photo).places_freq = s.places_freq := by
  simp only [flushPhotoStep]
  split <;> exact ⟨rfl, rfl, rfl, rfl⟩

/-- Folded over a whole stack, the flush steps never touch the
grouping fields. -/
theorem foldl_flushPhotoStep_frame (args : Args) (lib : Library) (metaOf : String → FileMeta)
    (sub : String) :
    ∀ (l : List Row) (s : LoopState),
      (List.foldl (flushPhotoStep args lib metaOf sub) s l).flushed = s.flushed ∧
      (List.foldl (flushPhotoStep args lib metaOf sub) s l).stack = s.stack ∧
      (List.foldl (flushPhotoStep args lib metaOf sub) s l).stack_timestamp =
        s.stack_timestamp ∧
      (List.foldl (flushPhotoStep args lib metaOf sub) s l).places_freq = s.places_freq := by
  intro l
  induction l with
  | nil => intro s; exact ⟨rfl, rfl, rfl, rfl⟩
  | cons a t ih =>
    intro s
    rw [List.foldl_cons]
    obtain ⟨h1, h2, h3, h4⟩ := flushPhotoStep_frame args lib metaOf sub s a
    obtain ⟨g1, g2, g3, g4⟩ := ih (flushPhotoStep args lib metaOf sub s a)
    exact ⟨g1.trans h1, g2.trans h2, g3.trans h3, g4.trans h4⟩

/-- Flushing appends exactly one record to the ghost trace and leaves
the grouping fields unchanged; an empty stack is not flushed. -/
theorem flushStack_spec (args : Args) (lib : Library) (metaOf : String → FileMeta)
    (st : LoopState) :
    (st.stack = [] → flushStack args lib metaOf st = st) ∧
    (st.stack ≠ [] →
      (flushStack args lib metaOf st).flushed =
        st.flushed ++ [⟨flushSubdir args st, st.stack_timestamp, st.places_freq, st.stack⟩] ∧
      (flushStack args lib metaOf st).stack = st.stack ∧
      (flushStack args lib metaOf st).stack_timestamp = st.stack_timestamp ∧
      (flushStack args lib metaOf st).places_freq = st.places_freq) := by
  constructor
  · intro h
    simp only [flushStack, h, if_pos]
  · intro h
    simp only [flushStack, if_neg h]
    obtain ⟨g1, g2, g3, g4⟩ := foldl_flushPhotoStep_frame args lib metaOf
      (flushSubdir args st) st.stack
      { st with flushed := st.flushed ++
          [⟨flushSubdir args st, st.stack_timestamp, st.places_freq, st.stack⟩] }
    exact ⟨g1, g2, g3, g4⟩

/-- In dry-run mode the per-photo flush step changes neither the
destination filesystem nor the metadata-tool trace. -/
theorem flushPhotoStep_dry (args : Args) (lib : Library) (metaOf : String → FileMeta)
    (sub : String) (s : LoopState) (photo : Row) (hdry : args.dryrun = true) :
    (flushPhotoStep args lib metaOf sub s photo).fs = s.fs ∧
    (flushPhotoStep args lib metaOf sub s photo).ops = s.ops := by
  simp only [flushPhotoStep, copyPhoto, hdry, if_true]
  split <;> simp

/-- In dry-run mode flushing a stack changes neither the destination
filesystem nor the metadata-tool trace. -/
theorem flushStack_dry (args : Args) (lib : Library) (metaOf : String → FileMeta)
    (st : LoopState) (hdry : args.dryrun = true) :
    (flushStack args lib metaOf st).fs = st.fs ∧
    (flushStack args lib metaOf st).ops = st.ops := by
  simp only [flushStack]
  split
  · exact ⟨rfl, rfl⟩
  · exact foldlInv (flushPhotoStep args lib metaOf (flushSubdir args st))
      (fun s => s.fs = st.fs ∧ s.ops = st.ops)
      (fun s a hs => by
        obtain ⟨h1, h2⟩ := flushPhotoStep_dry args lib metaOf (flushSubdir args st) s a hdry
        exact ⟨h1.trans hs.1, h2.trans hs.2⟩)
      st.stack
      { st with flushed := st.flushed ++
          [⟨flushSubdir args st, st.stack_timestamp, st.places_freq, st.stack⟩] }
      ⟨rfl, rfl⟩

/-- In dry-run mode the loop body changes neither the destination
filesystem nor the metadata-tool trace. -/
theorem processRow_dry (args : Args) (lib : Library) (metaOf : String → FileMeta)
    (st : LoopState) (row : Row) (hdry : args.dryrun = true) :
    (processRow args lib metaOf st row).fs = st.fs ∧
    (processRow args lib metaOf st row).ops = st.ops := by
  have hf := flushStack_dry args lib metaOf st hdry
  simp only [processRow]
  split
  · split
    · split <;> exact ⟨rfl, rfl⟩
    · exact ⟨rfl, rfl⟩
  · split
    · split <;> exact ⟨hf.1, hf.2⟩
    · exact ⟨hf.1, hf.2⟩

/-- The loop body extends the photos accounted for by exactly the
incoming row. -/
theorem processRow_join (args : Args) (lib : Library) (metaOf : String → FileMeta)
    (st : LoopState) (row : Row) :
    joinStacks (processRow args lib metaOf st row) = joinStacks st ++ [row] := by
  simp only [processRow, joinStacks]
  split
  · split
    · split <;> simp
    · simp
  · by_cases hst : st.stack = []
    · have he := (flushStack_spec args lib metaOf st).1 hst
      split
      · split <;> simp [he, hst]
      · simp [he, hst]
    · obtain ⟨h1, h2, h3, h4⟩ := (flushStack_spec args lib metaOf st).2 hst
      split
      · split <;> simp [h1]
      · simp [h1]

/-- Folding the loop body appends the consumed rows to the photos
accounted for. -/
theorem foldl_processRow_join (args : Args) (lib : Library) (metaOf : String → FileMeta) :
    ∀ (l : List Row) (s : LoopState),
      joinStacks (List.foldl (processRow args lib metaOf) s l) = joinStacks s ++ l := by
  intro l
  induction l with
  | nil => intro s; simp
  | cons a t ih =>
    intro s
    rw [List.foldl_cons, ih (processRow args lib metaOf s a),
      processRow_join args lib metaOf s a]
    simp

/-- Each per-photo flush step increments `index` and exactly one of
`copied`/`ignored`. -/
theorem flushPhotoStep_count (args : Args) (lib : Library) (metaOf : String → FileMeta)
    (sub : String) (s : LoopState) (photo : Row)
    (h : s.copied + s.ignored = s.index) :
    (flushPhotoStep args lib metaOf sub s photo).copied +
      (flushPhotoStep args lib metaOf sub s photo).ignored =
      (flushPhotoStep args lib metaOf sub s photo).index := by
  simp only [flushPhotoStep]
  rcases copyPhoto_status args s.fs photo sub with hst | hst <;>
    rw [hst] <;> split <;> simp <;> omega

/-- Flushing a stack preserves the counter balance. -/
theorem flushStack_count (args : Args) (lib : Library) (metaOf : String → FileMeta)
    (st : LoopState) (h : st.copied + st.ignored = st.index) :
    (flushStack args lib metaOf st).copied + (flushStack args lib metaOf st).ignored =
      (flushStack args lib metaOf st).index := by
  simp only [flushStack]
  split
  · exact h
  · exact foldlInv (flushPhotoStep args lib metaOf (flushSubdir args st))
      (fun s => s.copied + s.ignored = s.index)
      (fun s a hs => flushPhotoStep_count args lib metaOf (flushSubdir args st) s a hs)
      st.stack
      { st with flushed := st.flushed ++
          [⟨flushSubdir args st, st.stack_timestamp, st.places_freq, st.stack⟩] } h

/-- Python's `max` scan agrees with `firstMaxPair`: it returns the
first element (best seed included) attaining the maximal count. -/
theorem freqMaxAux_firstMax :
    ∀ (l : List (String × Nat)) (best : String × Nat),
      firstMaxPair (best :: l) = some (freqMaxAux l best) := by
  intro l
  induction l with
  | nil =>
    intro best
    simp [firstMaxPair, maxCount, freqMaxAux]
  | cons p rest ih =>
    intro best
    by_cases h : best.2 < p.2
    · have hm : ¬ (maxCount (p :: rest) ≤ best.2) := by
        simp only [maxCount]
        omega
      have e1 : freqMaxAux (p :: rest) best = freqMaxAux rest p := by
        simp [freqMaxAux, h]
      have e2 : firstMaxPair (best :: p :: rest) = firstMaxPair (p :: rest) := by
        rw [show firstMaxPair (best :: p :: rest) =
          (if maxCount (p :: rest) ≤ best.2 then some best
            else firstMaxPair (p :: rest)) from rfl, if_neg hm]
      rw [e1, e2]
      exact ih p
    · have e1 : freqMaxAux (p :: rest) best = freqMaxAux rest best := by
        simp [freqMaxAux, h]
      rw [e1]
      have hthis := ih best
      by_cases h2 : maxCount rest ≤ best.2
      · have hc : maxCount (p :: rest) ≤ best.2 := by
          simp only [maxCount]
          omega
        have e3 : firstMaxPair (best :: rest) = some best := by
          rw [show firstMaxPair (best :: rest) =
            (if maxCount rest ≤ best.2 then some best else firstMaxPair rest) from rfl,
            if_pos h2]
        rw [show firstMaxPair (best :: p :: rest) =
          (if maxCount (p :: rest) ≤ best.2 then some best
            else firstMaxPair (p :: rest)) from rfl, if_pos hc]
        exact e3.symm.trans hthis
      · have hc : ¬ (maxCount (p :: rest) ≤ best.2) := by
          simp only [maxCount]
          omega
      -- `¬ best.2 < p.2` gives `p.2 ≤ best.2 < maxCount rest`
        have hpc : ¬ (maxCount rest ≤ p.2) := by omega
        have e3 : firstMaxPair (best :: rest) = firstMaxPair rest := by
          rw [show firstMaxPair (best :: rest) =
            (if maxCount rest ≤ best.2 then some best else firstMaxPair rest) from rfl,
            if_neg h2]
        rw [show firstMaxPair (best :: p :: rest) =
          (if maxCount (p :: rest) ≤ best.2 then some best
            else firstMaxPair (p :: rest)) from rfl, if_neg hc]
        rw [show firstMaxPair (p :: rest) =
          (if maxCount rest ≤ p.2 then some p else firstMaxPair rest) from rfl,
          if_neg hpc]
        exact e3.symm.trans hthis

/-- Every count of a tally is bounded by `maxCount`. -/
theorem le_maxCount : ∀ (l : List (String × Nat)) (q : String × Nat), q ∈ l →
    q.2 ≤ maxCount l := by
  intro l
  induction l with
  | nil => intro q hq; simp at hq
  | cons p rest ih =>
    intro q hq
    rcases List.mem_cons.mp hq with hq | hq
    · subst hq
      simp only [maxCount]
      omega
    · have := ih q hq
      simp only [maxCount]
      omega

/-- `firstMaxPair` returns an element of the tally. -/
theorem firstMaxPair_mem : ∀ (l : List (String × Nat)) (x : String × Nat),
    firstMaxPair l = some x → x ∈ l := by
  intro l
  induction l with
  | nil => intro x h; simp [firstMaxPair] at h
  | cons p rest ih =>
    intro x h
    rw [show firstMaxPair (p :: rest) =
      (if maxCount rest ≤ p.2 then some p else firstMaxPair rest) from rfl] at h
    split at h
    · exact (Option.some.inj h) ▸ List.mem_cons_self p rest
    · exact List.mem_cons_of_mem p (ih x h)

/-- `firstMaxPair` returns a pair whose count is the maximal count. -/
theorem firstMaxPair_count : ∀ (l : List (String × Nat)) (x : String × Nat),
    firstMaxPair l = some x → x.2 = maxCount l := by
  intro l
  induction l with
  | nil => intro x h; simp [firstMaxPair] at h
  | cons p rest ih =>
    intro x h
    rw [show firstMaxPair (p :: rest) =
      (if maxCount rest ≤ p.2 then some p else firstMaxPair rest) from rfl] at h
    split at h
    · cases Option.some.inj h
      simp only [maxCount]
      omega
    · have := ih x h
      rename_i hc
      simp only [maxCount]
      omega

/-- `firstMaxPair` attains the (weakly) highest count of the tally. -/
theorem firstMaxPair_le (l : List (String × Nat)) (x : String × Nat)
    (h : firstMaxPair l = some x) : ∀ q ∈ l, q.2 ≤ x.2 := by
  intro q hq
  rw [firstMaxPair_count l x h]
  exact le_maxCount l q hq

/-- `freqInc` never introduces an empty key when fed a non-empty one. -/
theorem freqInc_keys (m : List (String × Nat)) (k : String)
    (hm : ∀ q ∈ m, q.1 ≠ "") (hk : k ≠ "") :
    ∀ q ∈ freqInc m k, q.1 ≠ "" := by
  intro q hq
  simp only [freqInc] at hq
  split at hq
  · obtain ⟨p, hp, hfp⟩ := List.mem_map.mp hq
    have := hm p hp
    subst hfp
    split <;> simpa using this
  · rcases List.mem_append.mp hq with hq | hq
    · exact hm q hq
    · simp at hq
      subst hq
      simpa using hk

/-- Every key of a running tally is a non-empty place name. -/
theorem tallyAux_keys (args : Args) (lib : Library) :
    ∀ (stack : List Row) (m : List (String × Nat)), (∀ q ∈ m, q.1 ≠ "") →
      ∀ q ∈ List.foldl (tallyStep args lib) m stack, q.1 ≠ "" := by
  intro stack
  induction stack with
  | nil => intro m hm q hq; exact hm q hq
  | cons r t ih =>
    intro m hm q hq
    rw [List.foldl_cons] at hq
    refine ih (tallyStep args lib m r) ?_ q hq
    intro q' hq'
    simp only [tallyStep] at hq'
    split at hq'
    · exact freqInc_keys m _ hm (by assumption) q' hq'
    · exact hm q' hq'

/-- Every key of a stack's tally is a non-empty place name. -/
theorem tallyOf_keys (args : Args) (lib : Library) (stack : List Row) :
    ∀ q ∈ tallyOf args lib stack, q.1 ≠ "" :=
  tallyAux_keys args lib stack [] (by intro q hq; simp at hq)

/-- When every photo of a list resolves to the empty place, the tally
fold leaves its accumulator unchanged. -/
theorem tallyAux_all_empty (args : Args) (lib : Library) :
    ∀ (stack : List Row) (m : List (String × Nat)),
      (∀ r ∈ stack, placeByModelId lib args.region r.modelId = "") →
      List.foldl (tallyStep args lib) m stack = m := by
  intro stack
  induction stack with
  | nil => intro m _; rfl
  | cons r t ih =>
    intro m hall
    rw [List.foldl_cons]
    have hr : placeByModelId lib args.region r.modelId = "" :=
      hall r (List.mem_cons_self r t)
    have hstep : tallyStep args lib m r = m := by
      simp [tallyStep, hr]
    rw [hstep]
    exact ih m (fun r' hr' => hall r' (List.mem_cons_of_mem r hr'))

/-- When every photo of a stack resolves to the empty place, the
stack's tally is empty. -/
theorem tallyOf_all_empty (args : Args) (lib : Library) (stack : List Row)
    (hall : ∀ r ∈ stack, placeByModelId lib args.region r.modelId = "") :
    tallyOf args lib stack = [] :=
  tallyAux_all_empty args lib stack [] hall

/-- Appending one photo to a stack advances its tally by one
`tallyStep`. -/
theorem tallyOf_append_one (args : Args) (lib : Library) (stack : List Row) (row : Row) :
    tallyOf args lib (stack ++ [row]) = tallyStep args lib (tallyOf args lib stack) row := by
  simp [tallyOf, List.foldl_append]

/-- The record written at flush time satisfies the dominant-place
specification, provided the loop tally agrees with the stack's
tally. -/
theorem goodRec_new (args : Args) (lib : Library) (hloc : args.location = true)
    (st : LoopState) (htally : st.places_freq = tallyOf args lib st.stack) :
    GoodRec args lib ⟨flushSubdir args st, st.stack_timestamp, st.places_freq, st.stack⟩ := by
  refine ⟨htally, ?_, ?_⟩
  · intro hall
    have hfreq : st.places_freq = [] :=
      htally.trans (tallyOf_all_empty args lib st.stack hall)
    show flushSubdir args st = st.stack_timestamp
    simp [flushSubdir, hfreq, String.append_empty]
  · intro hne
    rcases hfp : st.places_freq with _ | ⟨b, t⟩
    · exact absurd hfp hne
    · have hfm : firstMaxPair (b :: t) = some (freqMaxAux t b) := freqMaxAux_firstMax t b
      have hmem : freqMaxAux t b ∈ b :: t := firstMaxPair_mem _ _ hfm
      have hkey : (freqMaxAux t b).1 ≠ "" := by
        apply tallyOf_keys args lib st.stack
        rw [← htally, hfp]
        exact hmem
      refine ⟨(freqMaxAux t b).1, (freqMaxAux t b).2, ?_, hkey, ?_, ?_⟩
      · show firstMaxPair (b :: t) = some ((freqMaxAux t b).1, (freqMaxAux t b).2)
        rw [Prod.mk.eta]
        exact hfm
      · show flushSubdir args st = st.stack_timestamp ++ " " ++ (freqMaxAux t b).1
        have hcond : args.location = true ∧ st.places_freq ≠ [] := by
          rw [hfp]
          exact ⟨hloc, by simp⟩
        show st.stack_timestamp ++
          (if (if args.location = true ∧ st.places_freq ≠ [] then freqMax st.places_freq
            else "") ≠ "" then " " ++ (if args.location = true ∧ st.places_freq ≠ [] then
              freqMax st.places_freq else "") else "") =
          st.stack_timestamp ++ " " ++ (freqMaxAux t b).1
        rw [if_pos hcond, hfp]
        rw [show freqMax (b :: t) = (freqMaxAux t b).1 from rfl]
        rw [if_pos hkey, String.append_assoc]
      · intro q hq
        exact firstMaxPair_le _ _ hfm q hq

/-- The loop body preserves the dominant-place invariant: every
flushed record is good, and the live tally agrees with the open
stack. -/
theorem processRow_good (args : Args) (lib : Library) (metaOf : String → FileMeta)
    (hloc : args.location = true) (st : LoopState) (row : Row)
    (h : (∀ rec ∈ st.flushed, GoodRec args lib rec) ∧
      st.places_freq = tallyOf args lib st.stack) :
    (∀ rec ∈ (processRow args lib metaOf st row).flushed, GoodRec args lib rec) ∧
      (processRow args lib metaOf st row).places_freq =
        tallyOf args lib (processRow args lib metaOf st row).stack := by
  obtain ⟨hrecs, htally⟩ := h
  simp only [processRow, hloc, eq_self_iff_true, if_true, ite_true]
  split
  · -- same day: the photo joins the open stack
    split
    · rename_i hplace
      refine ⟨fun rec hrec => hrecs rec hrec, ?_⟩
      show freqInc st.places_freq (placeByModelId lib args.region row.modelId) =
        tallyOf args lib (st.stack ++ [row])
      rw [tallyOf_append_one]
      simp only [tallyStep]
      rw [if_pos hplace, htally]
    · rename_i hplace
      refine ⟨fun rec hrec => hrecs rec hrec, ?_⟩
      show st.places_freq = tallyOf args lib (st.stack ++ [row])
      rw [tallyOf_append_one]
      simp only [tallyStep]
      rw [if_neg hplace, htally]
  · -- day change: flush, then open a new stack
    have hflush : ∀ rec ∈ (flushStack args lib metaOf st).flushed, GoodRec args lib rec := by
      intro rec hrec
      by_cases hst : st.stack = []
      · rw [(flushStack_spec args lib metaOf st).1 hst] at hrec
        exact hrecs rec hrec
      · obtain ⟨h1, _, _, _⟩ := (flushStack_spec args lib metaOf st).2 hst
        rw [h1] at hrec
        rcases List.mem_append.mp hrec with hmem | hmem
        · exact hrecs rec hmem
        · have he : rec =
              ⟨flushSubdir args st, st.stack_timestamp, st.places_freq, st.stack⟩ := by
            simpa using hmem
          rw [he]
          exact goodRec_new args lib hloc st htally
    split
    · rename_i hplace
      refine ⟨fun rec hrec => hflush rec hrec, ?_⟩
      show [(placeByModelId lib args.region row.modelId, 1)] = tallyOf args lib [row]
      simp [tallyOf, tallyStep, freqInc, hplace]
    · rename_i hplace
      refine ⟨fun rec hrec => hflush rec hrec, ?_⟩
      show [] = tallyOf args lib [row]
      simp [tallyOf, tallyStep, hplace]

/-- The loop body preserves the counter balance. -/
theorem processRow_count (args : Args) (lib : Library) (metaOf : String → FileMeta)
    (st : LoopState) (row : Row) (h : st.copied + st.ignored = st.index) :
    (processRow args lib metaOf st row).copied + (processRow args lib metaOf st row).ignored =
      (processRow args lib metaOf st row).index := by
  have hf := flushStack_count args lib metaOf st h
  simp only [processRow]
  split
  · split
    · split <;> exact h
    · exact h
  · split
    · split <;> exact hf
    · exact hf

/-- Joining a list that ends in `x` produces a string ending in `x`. -/
theorem joinSep_append_last (sep : String) :
    ∀ (xs : List String) (x : String), ∃ pre, joinSep sep (xs ++ [x]) = pre ++ x := by
  intro xs
  induction xs with
  | nil =>
    intro x
    refine ⟨"", ?_⟩
    show x = "" ++ x
    rw [String.empty_append]
  | cons y ys ih =>
    intro x
    obtain ⟨pre, hpre⟩ := ih x
    cases hys : ys ++ [x] with
    | nil => exact absurd hys (by simp)
    | cons z zs =>
      refine ⟨y ++ sep ++ pre, ?_⟩
      rw [List.cons_append, hys]
      show y ++ sep ++ joinSep sep (z :: zs) = y ++ sep ++ pre ++ x
      rw [← hys, hpre, String.append_assoc (y ++ sep) pre x]

/-- C1: the claim expects the example scenario (three photos on
2023-05-01 with places Kitchen, Kitchen, Garden and one photo on
2023-05-02 with no place) to yield subdirectories "2023-05-01 Kitchen"
(3 files) and "2023-05-02" (1 file) with copy count 4.  The code never
flushes the stack left open when the row stream ends, so the run
copies only 3 files, creates only "2023-05-01 Kitchen", and leaves the
2023-05-02 photo in the open stack, unexported. -/
theorem export_drops_last_day_stack :
    (runExport exArgs exLib exMeta [] [ex1, ex2, ex3, ex4]).copied = 3 ∧
    (runExport exArgs exLib exMeta [] [ex1, ex2, ex3, ex4]).ignored = 0 ∧
    (runExport exArgs exLib exMeta [] [ex1, ex2, ex3, ex4]).flushed.map FlushRec.subdir =
      ["2023-05-01 Kitchen"] ∧
    (runExport exArgs exLib exMeta [] [ex1, ex2, ex3, ex4]).stack = [ex4] := by
  decide

/-- C2: the claim expects a second identical run to skip every photo
of the library (skip count = library size).  Because the final open
stack is never flushed, a one-photo library is never copied at all:
both runs end with `copied = 0` and `ignored = 0`, yet the library has
1 photo. -/
theorem second_run_misses_last_day_stack :
    (runExport baseArgs trivLib exMeta
        (runExport baseArgs trivLib exMeta [] [c2Row]).fs [c2Row]).copied = 0 ∧
    (runExport baseArgs trivLib exMeta
        (runExport baseArgs trivLib exMeta [] [c2Row]).fs [c2Row]).ignored = 0 ∧
    ([c2Row] : List Row).length = 1 := by
  decide

/-- C3: the claim says both the EXIF date sync and the face-keyword
sync are gated by the metadata-editable extension check.  In the code
only the date sync is inside the extension check; the keyword sync
runs for every photo when face sync is enabled: a `.png` photo
receives a keyword write. -/
theorem keyword_sync_not_extension_gated :
    postProcessPhoto pngArgs pngLib exMeta "x.png" pngRow =
      [EtCall.setKeywords "x.png" ["Alice"]] ∧
    extLower pngRow.fileName = ".png" := by
  decide

/-- C4 counterexample: the claim says dry-run performs every metadata
comparison exactly as a normal run.  On the same two-photo input the
normal run issues a tag read (the date comparison) while the dry run
issues no metadata-tool call at all, because post-processing is
skipped entirely in dry-run mode. -/
theorem dryrun_skips_metadata_comparison :
    (runExport c4ArgsD trivLib exMeta [] [c4Row1, c4Row2]).ops = [] ∧
    (runExport c4ArgsN trivLib exMeta [] [c4Row1, c4Row2]).ops =
      [EtCall.getTags "2023-05-01/a.jpg",
       EtCall.setDate "2023-05-01/a.jpg" "2023:05:01 00:00:00"] := by
  decide

/-- C4 (amended): in dry-run mode the exporter still walks every
flushed photo and counts copy/skip decisions, but it performs no
filesystem copy (the destination file set is unchanged) and issues no
metadata-tool call whatsoever — post-processing is skipped entirely,
so no metadata comparison or write occurs. -/
theorem dryrun_no_copy_no_metadata (args : Args) (lib : Library)
    (metaOf : String → FileMeta) (fs0 : List String) (rows : List Row)
    (hdry : args.dryrun = true) :
    (runExport args lib metaOf fs0 rows).fs = fs0 ∧
    (runExport args lib metaOf fs0 rows).ops = [] := by
  exact foldlInv (processRow args lib metaOf) (fun s => s.fs = fs0 ∧ s.ops = [])
    (fun s a hs => by
      obtain ⟨h1, h2⟩ := processRow_dry args lib metaOf s a hdry
      exact ⟨h1.trans hs.1, h2.trans hs.2⟩)
    rows (initState fs0) ⟨rfl, rfl⟩

/-- C4 witness: the amended dry-run theorem at a concrete input. -/
theorem dryrun_no_copy_no_metadata_witness :
    (runExport c4ArgsD trivLib exMeta [] [c4Row1, c4Row2]).fs = [] ∧
    (runExport c4ArgsD trivLib exMeta [] [c4Row1, c4Row2]).ops = [] :=
  dryrun_no_copy_no_metadata c4ArgsD trivLib exMeta [] [c4Row1, c4Row2] rfl

/-- C5: for a metadata-editable photo with date sync enabled, the EXIF
date write is issued (with the desired `YYYY:MM:DD HH:MM:SS` string
computed from the resolved timestamp) exactly when the file's current
embedded date — create-date preferred, else original-date-time, else
empty — differs from it; when they match no date write is issued. -/
theorem exif_date_rewrite_iff_differs (args : Args) (lib : Library)
    (metaOf : String → FileMeta) (fileName : String) (row : Row)
    (hexif : args.exif = true)
    (hext : extLower row.fileName = ".jpg" ∨ extLower row.fileName = ".jpeg") :
    (currentDateInExif (metaOf fileName) ≠ exifDateOfSecs (photoTimestamp row) →
      EtCall.setDate fileName (exifDateOfSecs (photoTimestamp row)) ∈
        postProcessPhoto args lib metaOf fileName row) ∧
    (currentDateInExif (metaOf fileName) = exifDateOfSecs (photoTimestamp row) →
      hasSetDate (postProcessPhoto args lib metaOf fileName row) = false) := by
  constructor
  · intro hne
    simp only [postProcessPhoto, hexif, if_true, ite_true, eq_self_iff_true]
    rw [if_pos hext, if_pos hne]
    simp
  · intro heq
    simp only [postProcessPhoto, hexif, if_true, ite_true, eq_self_iff_true]
    rw [if_pos hext, if_neg (fun hc => hc heq)]
    split <;> simp [hasSetDate]

/-- C5 witness: a JPEG carrying no EXIF date receives the date write. -/
theorem exif_date_rewrite_iff_differs_witness :
    EtCall.setDate "d" (exifDateOfSecs (photoTimestamp c4Row1)) ∈
      postProcessPhoto c4ArgsN trivLib exMeta "d" c4Row1 :=
  (exif_date_rewrite_iff_differs c4ArgsN trivLib exMeta "d" c4Row1 rfl
    (Or.inl (by decide))).1 (by decide)

/-- C6: with location augmentation enabled, every flushed day-stack
record is good (`GoodRec`): its tally counts exactly the non-empty
resolved places of its photos, the subdirectory is the bare day key
when every photo's resolved place is empty, and otherwise carries the
first tally key attaining the strictly highest count as suffix. -/
theorem flushed_stack_dominant_place (args : Args) (lib : Library)
    (metaOf : String → FileMeta) (fs0 : List String) (rows : List Row)
    (hloc : args.location = true) :
    ∀ rec ∈ (runExport args lib metaOf fs0 rows).flushed, GoodRec args lib rec := by
  have h := foldlInv (processRow args lib metaOf)
    (fun st => (∀ rec ∈ st.flushed, GoodRec args lib rec) ∧
      st.places_freq = tallyOf args lib st.stack)
    (fun st row hst => processRow_good args lib metaOf hloc st row hst)
    rows (initState fs0)
    ⟨by intro rec hrec; exact absurd hrec (by simp [initState]), rfl⟩
  exact h.1

/-- C6 witness: the dominant-place theorem at the example scenario's
flushed stack. -/
theorem flushed_stack_dominant_place_witness :
    exArgs.location = true ∧
    GoodRec exArgs exLib
      ⟨"2023-05-01 Kitchen", "2023-05-01", [("Kitchen", 2), ("Garden", 1)],
        [ex1, ex2, ex3]⟩ :=
  ⟨rfl, flushed_stack_dominant_place exArgs exLib exMeta [] [ex1, ex2, ex3, ex4] rfl
    ⟨"2023-05-01 Kitchen", "2023-05-01", [("Kitchen", 2), ("Garden", 1)],
      [ex1, ex2, ex3]⟩ (by decide)⟩

/-- C7: the place resolver returns the empty string when no place
association exists; with associations and non-empty distinct names it
returns the most specific (first, smallest-area) name when region
hierarchy is off and the reversed names joined by ", " when it is on;
and the hierarchy-mode result always ends in the non-hierarchy-mode
result. -/
theorem placeByModelId_hierarchy_spec (lib : Library) (modelId : Nat) :
    (lib.placeForVersion modelId = [] →
      ∀ region : Bool, placeByModelId lib region modelId = "") ∧
    (lib.placeForVersion modelId ≠ [] →
      placeNamesAsc lib (lib.placeForVersion modelId) ≠ [] →
      placeByModelId lib false modelId =
        (placeNamesAsc lib (lib.placeForVersion modelId)).headD "" ∧
      placeByModelId lib true modelId =
        joinSep ", " (placeNamesAsc lib (lib.placeForVersion modelId)).reverse) ∧
    (∃ pre, placeByModelId lib true modelId =
      pre ++ placeByModelId lib false modelId) := by
  refine ⟨?_, ?_, ?_⟩
  · intro h region
    simp [placeByModelId, h]
  · intro h1 h2
    constructor <;> simp [placeByModelId, h1, h2]
  · by_cases h1 : lib.placeForVersion modelId = []
    · refine ⟨"", ?_⟩
      simp [placeByModelId, h1]
    · by_cases h2 : placeNamesAsc lib (lib.placeForVersion modelId) = []
      · refine ⟨"", ?_⟩
        simp [placeByModelId, h1, h2]
      · rcases hn : placeNamesAsc lib (lib.placeForVersion modelId) with _ | ⟨n, rest⟩
        · exact absurd hn h2
        · obtain ⟨pre, hpre⟩ := joinSep_append_last ", " rest.reverse n
          refine ⟨pre, ?_⟩
          simp [placeByModelId, h1, hn, List.reverse_cons, hpre]

/-- C7 witness: the place resolver spec at a two-level hierarchy. -/
theorem placeByModelId_hierarchy_spec_witness :
    placeByModelId lib7 false 1 = "Kitchen" ∧
    placeByModelId lib7 true 1 = "Amsterdam, Kitchen" := by
  have h := (placeByModelId_hierarchy_spec lib7 1).2.1 (by decide) (by decide)
  exact ⟨h.1.trans (by decide), h.2.trans (by decide)⟩

/-- C8 counterexample: rows ordered by stored capture time need not
have monotone day keys, because the day key adds the timezone offset:
with capture times 0 < 1 < 2 and offsets 86400, 0, 172800 the flushed
day keys are "2001-01-02" then "2001-01-01", a strictly decreasing
pair. -/
theorem day_keys_not_monotone :
    m1.date < m2.date ∧ m2.date < m3.date ∧
    dayKeyOfSecs (photoTimestamp m1) = "2001-01-02" ∧
    dayKeyOfSecs (photoTimestamp m2) = "2001-01-01" ∧
    (runExport baseArgs trivLib exMeta [] [m1, m2, m3]).flushed.map FlushRec.dayk =
      ["2001-01-02", "2001-01-01"] ∧
    ¬ (("2001-01-02" : String) ≤ "2001-01-01") := by
  refine ⟨by decide, by decide, by decide, by decide, by decide, ?_⟩
  rw [String.le_iff_toList_le]
  decide

/-- C8 (amended): each photo belongs to exactly one day-stack — the
flushed stacks in flush order followed by the still-open stack
partition the input stream — but the day keys need not be monotone
over the stream, since the ordering is by stored capture time while
the day key also adds the timezone offset. -/
theorem stacks_partition_stream (args : Args) (lib : Library)
    (metaOf : String → FileMeta) (fs0 : List String) (rows : List Row) :
    joinStacks (runExport args lib metaOf fs0 rows) = rows := by
  have h := foldl_processRow_join args lib metaOf rows (initState fs0)
  simpa [runExport, joinStacks, initState] using h

/-- C9 counterexample: the zero-image exit (`sys.exit(0)` at line 128)
runs no cleanup: neither the database close nor the scratch-directory
removal appears in its trace. -/
theorem zero_images_exit_skips_cleanup :
    scriptTrace baseArgs 0 [] = [Effect.exitCode 0] ∧
    Effect.dbClose ∉ scriptTrace baseArgs 0 [] ∧
    Effect.rmTempDir ∉ scriptTrace baseArgs 0 [] := by
  decide

/-- C9 (amended): the cleanup sequence — close the database handles,
remove the scratch area, terminate the metadata tool when it was
started — runs on normal completion (non-zero image count) and on
interruption; the zero-image exit returns without it. -/
theorem cleanup_on_completion_and_interrupt (args : Args) (n : Nat)
    (body : List Effect) (etStarted : Bool) (h : n ≠ 0) :
    (Effect.dbClose ∈ scriptTrace args n body ∧
      Effect.rmTempDir ∈ scriptTrace args n body ∧
      (args.exif = true → Effect.etTerminate ∈ scriptTrace args n body)) ∧
    (Effect.dbClose ∈ cleanOnInterrupt etStarted ∧
      Effect.rmTempDir ∈ cleanOnInterrupt etStarted ∧
      (etStarted = true → Effect.etTerminate ∈ cleanOnInterrupt etStarted)) := by
  constructor
  · refine ⟨?_, ?_, ?_⟩
    · simp [scriptTrace, cleanUpEffects, h]
    · simp [scriptTrace, cleanUpEffects, h]
    · intro he
      simp [scriptTrace, cleanUpEffects, h, he]
  · refine ⟨?_, ?_, ?_⟩
    · simp [cleanOnInterrupt, cleanUpEffects]
    · simp [cleanOnInterrupt, cleanUpEffects]
    · intro he
      simp [cleanOnInterrupt, cleanUpEffects, he]

/-- C9 witness: the cleanup theorem at one image,
ExifTool not started. -/
theorem cleanup_on_completion_and_interrupt_witness :
    (Effect.dbClose ∈ scriptTrace baseArgs 1 [] ∧
      Effect.rmTempDir ∈ scriptTrace baseArgs 1 [] ∧
      (baseArgs.exif = true → Effect.etTerminate ∈ scriptTrace baseArgs 1 [])) ∧
    (Effect.dbClose ∈ cleanOnInterrupt false ∧
      Effect.rmTempDir ∈ cleanOnInterrupt false ∧
      (false = true → Effect.etTerminate ∈ cleanOnInterrupt false)) :=
  cleanup_on_completion_and_interrupt baseArgs 1 [] false (by decide)

/-- C10: at every point of the run the copied and ignored counters sum
to the processed-photo index: every photo of a flushed stack
increments exactly one of the two, in dry-run and normal mode alike
(every prefix of the row stream is itself a run, so this covers every
intermediate state). -/
theorem copied_add_ignored_eq_index (args : Args) (lib : Library)
    (metaOf : String → FileMeta) (fs0 : List String) (rows : List Row) :
    (runExport args lib metaOf fs0 rows).copied +
      (runExport args lib metaOf fs0 rows).ignored =
      (runExport args lib metaOf fs0 rows).index :=
  foldlInv (processRow args lib metaOf) (fun s => s.copied + s.ignored = s.index)
    (fun s a hs => processRow_count args lib metaOf s a hs) rows (initState fs0) rfl
